import Mathlib

/-!
Shallow embedding of the leave-management core (`leave_app/services.py` and
`leave_app/models.py`) and proofs about its validation / approval workflow.

Modelling conventions:
* Dates are day indices (`Nat`); the epoch is chosen to be a Monday, so
  The Python `date.weekday()` call becomes `d % 7` (0 = Monday … 6 = Sunday).
  The calendar-year function of the `datetime` library is abstracted as an
  arbitrary `yearOf : Nat → Nat` carried in a `Calendar`, together with the
  ambient `timezone.now().date()` as `today`.
* Python `Decimal` quantities become `ℚ`.
* The Django ORM state is an explicit `DB` record: the `Holiday` table as a
  list of dates, the `LeaveRequest` table as a list, the `LeaveBalance`
  table as a list (row order models insertion order; the schema
  `unique_together ("employee", "leave_type", "year")` makes `.get` the
  first match), and the `LeaveType` table as a list.
* `raise ValidationError(msg)` becomes `Except Err`; each distinct message
  string in the source is a distinct `Err` constructor.
* Mutation (`balance.save()`, `leave_request.save()`) becomes explicit
  state passing: `approve_leave_request` returns the balance table as
  persisted at the moment it finishes or raises, so that partial debits
  would be observable if they could occur.
-/

namespace LeaveApp

/-- Status enum of `LeaveRequest` (models.py `STATUS_CHOICES`). -/
inductive Status where
  | pending
  | approved
  | rejected
  | cancelled
deriving DecidableEq, Repr

/-- `LeaveType` row (models.py): flags used by the core services. -/
structure LeaveType where
  id : Nat
  allow_half_day : Bool
  is_paid : Bool
  default_allocation : ℚ
deriving DecidableEq, Repr

/-- `LeaveBalance` row (models.py), keyed by (employee, leave_type, year). -/
structure LeaveBalance where
  employee : Nat
  leaveTypeId : Nat
  year : Nat
  allocated : ℚ
  used : ℚ
deriving DecidableEq, Repr

/-- `LeaveBalance.remaining` property: `allocated - used`, never stored. -/
def LeaveBalance.remaining (b : LeaveBalance) : ℚ :=
  b.allocated - b.used

/-- `LeaveRequest` row (models.py); `id` is the primary key `pk`. -/
structure LeaveRequest where
  id : Nat
  employee : Nat
  leave_type : LeaveType
  start_date : Nat
  end_date : Nat
  half_day : Bool
  status : Status
  approver : Option Nat
  approve_comment : String
deriving DecidableEq, Repr

/-- Ambient calendar facts: the year of a day index and the current date. -/
structure Calendar where
  yearOf : Nat → Nat
  today : Nat

/-- Database state the services read and write. -/
structure DB where
  holidays : List Nat
  requests : List LeaveRequest
  balances : List LeaveBalance
  leave_types : List LeaveType

/-- The distinct `ValidationError` messages raised by services.py. -/
inductive Err where
  /-- "End date must be after start date." -/
  | endBeforeStart
  /-- "Half-day leave must have the same start and end date." -/
  | halfDayRange
  /-- "Cannot request leave in the past." -/
  | pastDate
  /-- "This leave type does not allow half-day leave." -/
  | halfDayNotAllowed
  /-- "Leave request overlaps with existing leave." -/
  | overlapping
  /-- "No leave balance for {type} in year {year}." (validate) -/
  | noBalance (year : Nat)
  /-- "Not enough leave balance for {type} in {year}. …" (validate) -/
  | notEnoughBalance (year : Nat)
  /-- "Only pending requests can be approved/rejected." -/
  | notPending
  /-- "Leave balance not found for this request." (approve) -/
  | noBalanceApprove
  /-- "Insufficient leave balance." (approve) -/
  | notEnoughBalanceApprove
deriving DecidableEq, Repr

/-- Spec taxonomy: messages classified as `InvalidRangeError`. -/
def Err.isInvalidRange : Err → Bool
  | .endBeforeStart => true
  | .halfDayRange => true
  | _ => false

/-- Spec taxonomy: messages classified as `BalanceNotFoundError`. -/
def Err.isBalanceNotFound : Err → Bool
  | .noBalance _ => true
  | .noBalanceApprove => true
  | _ => false

/-- Spec taxonomy: messages classified as `InsufficientBalanceError`. -/
def Err.isInsufficientBalance : Err → Bool
  | .notEnoughBalance _ => true
  | .notEnoughBalanceApprove => true
  | _ => false

/-- `current.weekday() < 5 and not Holiday.objects.filter(date=current).exists()`. -/
def isWorkingDay (holidays : List Nat) (d : Nat) : Bool :=
  decide (d % 7 < 5) && !(holidays.contains d)

/-- The dates scanned by `while current <= end_date`, in order. -/
def rangeList (s e : Nat) : List Nat :=
  (List.range (e + 1 - s)).map (fun i => s + i)

/-- services.py `calculate_working_days` (legacy scalar calculator). -/
def calculate_working_days (holidays : List Nat) (s e : Nat) (half_day : Bool) : ℚ :=
  if half_day then 1 / 2
  else (rangeList s e).foldl (fun acc d => if isWorkingDay holidays d then acc + 1 else acc) 0

/-- Python dict update `days_by_year.setdefault(year, 0); days_by_year[year] += 1`:
first occurrence of a key appends it, preserving insertion order. -/
def bump : List (Nat × ℚ) → Nat → List (Nat × ℚ)
  | [], y => [(y, 1)]
  | (y', v) :: rest, y =>
      if y' = y then (y', v + 1) :: rest else (y', v) :: bump rest y

/-- Accumulator loop of `calculate_working_days_by_year`. -/
def accumulateDays (cal : Calendar) (holidays : List Nat) :
    List Nat → List (Nat × ℚ) → List (Nat × ℚ)
  | [], m => m
  | d :: rest, m =>
      accumulateDays cal holidays rest
        (if isWorkingDay holidays d then bump m (cal.yearOf d) else m)

/-- services.py `calculate_working_days_by_year`. -/
def calculate_working_days_by_year (cal : Calendar) (holidays : List Nat)
    (s e : Nat) (half_day : Bool) : Except Err (List (Nat × ℚ)) :=
  if half_day then
    if s ≠ e then .error .halfDayRange
    else .ok [(cal.yearOf s, 1 / 2)]
  else .ok (accumulateDays cal holidays (rangeList s e) [])

/-- First-match lookup of the value stored for a year (dict indexing). -/
def lookupVal : List (Nat × ℚ) → Nat → ℚ
  | [], _ => 0
  | (y', v) :: rest, y => if y' = y then v else lookupVal rest y

/-- Python `sum(days_by_year.values())`. -/
def sumVals : List (Nat × ℚ) → ℚ
  | [] => 0
  | (_, v) :: rest => v + sumVals rest

/-- Keys of the year map, in insertion order. -/
def keysOf (m : List (Nat × ℚ)) : List Nat :=
  m.map Prod.fst

/-- `LeaveBalance.objects.get(employee=…, leave_type=…, year=…)`: first match
(the uniqueness constraint of the schema makes it the only match). -/
def findBalance : List LeaveBalance → Nat → Nat → Nat → Option LeaveBalance
  | [], _, _, _ => none
  | b :: rest, emp, ltId, y =>
      if b.employee = emp ∧ b.leaveTypeId = ltId ∧ b.year = y then some b
      else findBalance rest emp ltId y

/-- The filter predicate of the overlap queryset in `validate_leave_request`:
same employee, status in {PENDING, APPROVED}, `start_date <= end_date_candidate`,
`end_date >= start_date_candidate`, and not the pk of the excluded instance. -/
def overlapsCandidate (emp s e : Nat) (excluding : Option Nat) (r : LeaveRequest) : Bool :=
  decide (r.employee = emp) &&
  (decide (r.status = Status.pending) || decide (r.status = Status.approved)) &&
  decide (r.start_date ≤ e) &&
  decide (s ≤ r.end_date) &&
  (match excluding with
   | none => true
   | some pk => decide (r.id ≠ pk))

/-- Quota-check loop of `validate_leave_request` (step "Check yearly quota"). -/
def checkQuota (bals : List LeaveBalance) (emp ltId : Nat) :
    List (Nat × ℚ) → Except Err Unit
  | [] => .ok ()
  | (y, d) :: rest =>
      match findBalance bals emp ltId y with
      | none => .error (.noBalance y)
      | some b =>
          if b.remaining < d then .error (.notEnoughBalance y)
          else checkQuota bals emp ltId rest

/-- services.py `validate_leave_request`; `excluding` is the pk of the
`instance` parameter (the request excluded from the overlap check). -/
def validate_leave_request (cal : Calendar) (db : DB) (employee : Nat)
    (leave_type : LeaveType) (start_date end_date : Nat) (half_day : Bool)
    (excluding : Option Nat) : Except Err ℚ :=
  if end_date < start_date then .error .endBeforeStart
  else if start_date < cal.today then .error .pastDate
  else if half_day && !leave_type.allow_half_day then .error .halfDayNotAllowed
  else if db.requests.any (overlapsCandidate employee start_date end_date excluding) then
    .error .overlapping
  else
    match calculate_working_days_by_year cal db.holidays start_date end_date half_day with
    | .error err => .error err
    | .ok dby =>
        if !leave_type.is_paid then .ok (sumVals dby)
        else
          match checkQuota db.balances employee leave_type.id dby with
          | .error err => .error err
          | .ok _ => .ok (sumVals dby)

/-- `balance.used += days; balance.save()`: update the (unique) matching row. -/
def debitFirst : List LeaveBalance → Nat → Nat → Nat → ℚ → List LeaveBalance
  | [], _, _, _, _ => []
  | b :: rest, emp, ltId, y, d =>
      if b.employee = emp ∧ b.leaveTypeId = ltId ∧ b.year = y then
        { b with used := b.used + d } :: rest
      else b :: debitFirst rest emp ltId y d

/-- Debit loop of `approve_leave_request`: each iteration re-fetches the
balance, re-checks it defensively, debits and saves. On error it returns the
balance table as already persisted, so a partial debit would be observable. -/
def debitLoop (emp ltId : Nat) :
    List (Nat × ℚ) → List LeaveBalance → Except (Err × List LeaveBalance) (List LeaveBalance)
  | [], bals => .ok bals
  | (y, d) :: rest, bals =>
      match findBalance bals emp ltId y with
      | none => .error (.noBalanceApprove, bals)
      | some b =>
          if b.remaining < d then .error (.notEnoughBalanceApprove, bals)
          else debitLoop emp ltId rest (debitFirst bals emp ltId y d)

/-- Result of `approve_leave_request` / `reject_leave_request`: either the
updated balance table and saved request, or the raised error together with
the balance table as persisted at the moment of the raise. -/
inductive ApproveResult where
  | ok (balances : List LeaveBalance) (req : LeaveRequest)
  | err (e : Err) (balances : List LeaveBalance)
deriving DecidableEq, Repr

/-- Balance table left behind by an approve/reject call. -/
def ApproveResult.balances : ApproveResult → List LeaveBalance
  | .ok bals _ => bals
  | .err _ bals => bals

/-- services.py `approve_leave_request`. -/
def approve_leave_request (cal : Calendar) (db : DB) (req : LeaveRequest)
    (approver : Nat) (comment : String) : ApproveResult :=
  if req.status ≠ Status.pending then .err .notPending db.balances
  else
    match validate_leave_request cal db req.employee req.leave_type
        req.start_date req.end_date req.half_day (some req.id) with
    | .error e => .err e db.balances
    | .ok _ =>
        match calculate_working_days_by_year cal db.holidays
            req.start_date req.end_date req.half_day with
        | .error e => .err e db.balances
        | .ok dby =>
            match (if req.leave_type.is_paid then
                     debitLoop req.employee req.leave_type.id dby db.balances
                   else .ok db.balances) with
            | .error (e, bals) => .err e bals
            | .ok bals =>
                .ok bals
                  { req with
                    status := Status.approved
                    approver := some approver
                    approve_comment := comment }

/-- services.py `reject_leave_request`: never references `LeaveBalance`. -/
def reject_leave_request (db : DB) (req : LeaveRequest)
    (approver : Nat) (comment : String) : ApproveResult :=
  if req.status ≠ Status.pending then .err .notPending db.balances
  else
    .ok db.balances
      { req with
        status := Status.rejected
        approver := some approver
        approve_comment := comment }

/-- One `get_or_create` step of `create_default_leave_balances`. -/
def provisionOne (emp year : Nat) (bals : List LeaveBalance) (lt : LeaveType) :
    List LeaveBalance :=
  match findBalance bals emp lt.id year with
  | some _ => bals
  | none =>
      bals ++ [{ employee := emp, leaveTypeId := lt.id, year := year,
                 allocated := lt.default_allocation, used := 0 }]

/-- services.py `create_default_leave_balances` for an explicit year. -/
def create_default_leave_balances (db : DB) (emp year : Nat) : List LeaveBalance :=
  db.leave_types.foldl (provisionOne emp year) db.balances

/-- Per-row immutable part of a balance: everything except `used`. -/
def balanceShape (b : LeaveBalance) : Nat × Nat × Nat × ℚ :=
  (b.employee, b.leaveTypeId, b.year, b.allocated)

/-- Pure description of what the successful debit loop does to the table:
debit the row of each year in turn. -/
def applyDebits (emp ltId : Nat) : List (Nat × ℚ) → List LeaveBalance → List LeaveBalance
  | [], bals => bals
  | (y, d) :: rest, bals => applyDebits emp ltId rest (debitFirst bals emp ltId y d)

/-- Balance table as persisted when the debit loop finishes or raises. -/
def loopBalances : Except (Err × List LeaveBalance) (List LeaveBalance) → List LeaveBalance
  | .ok bals => bals
  | .error (_, bals) => bals

/-! ### Concrete sample data (used to instantiate the theorems) -/

/-- Sample calendar: 365-day years, today is day 100 (a Wednesday: 100 % 7 = 2). -/
def cal0 : Calendar :=
  { yearOf := fun d => d / 365, today := 100 }

/-- Sample paid leave type allowing half days. -/
def lt0 : LeaveType :=
  { id := 1, allow_half_day := true, is_paid := true, default_allocation := 10 }

/-- Sample balance row: allocated 10, used 8, remaining 2. -/
def bal0 : LeaveBalance :=
  { employee := 7, leaveTypeId := 1, year := 0, allocated := 10, used := 8 }

/-- Sample pending request: days 100–101, two working days. -/
def req0 : LeaveRequest :=
  { id := 5, employee := 7, leave_type := lt0, start_date := 100, end_date := 101,
    half_day := false, status := .pending, approver := none, approve_comment := "" }

/-- Sample already-rejected request. -/
def reqRejected0 : LeaveRequest :=
  { req0 with id := 6, status := .rejected }

/-- Sample pending request for three working days (100–102), exceeding the
remaining balance of 2. -/
def reqTooLong0 : LeaveRequest :=
  { req0 with end_date := 102 }

/-- Sample weekend-only pending request: days 103–104 (Saturday, Sunday). -/
def reqWeekend0 : LeaveRequest :=
  { id := 8, employee := 7, leave_type := lt0, start_date := 103, end_date := 104,
    half_day := false, status := .pending, approver := none, approve_comment := "" }

/-- Sample database. -/
def db0 : DB :=
  { holidays := [], requests := [req0], balances := [bal0], leave_types := [lt0] }

/-- Sample database with no requests and no balance rows at all. -/
def dbEmpty : DB :=
  { holidays := [], requests := [], balances := [], leave_types := [lt0] }

/-! ### Year-map lemmas -/

theorem lookupVal_bump_self (m : List (Nat × ℚ)) (y : Nat) :
    lookupVal (bump m y) y = lookupVal m y + 1 := by
  induction m with
  | nil => simp [bump, lookupVal]
  | cons p rest ih =>
      obtain ⟨y', v⟩ := p
      by_cases h : y' = y <;> simp [bump, lookupVal, h, ih]

theorem lookupVal_bump_ne (m : List (Nat × ℚ)) (y y' : Nat) (h : y' ≠ y) :
    lookupVal (bump m y) y' = lookupVal m y' := by
  have hyy : ¬ y = y' := fun h2 => h h2.symm
  induction m with
  | nil => simp [bump, lookupVal, hyy]
  | cons p rest ih =>
      obtain ⟨y0, v⟩ := p
      by_cases h0 : y0 = y
      · subst h0
        simp [bump, lookupVal, hyy]
      · by_cases h1 : y0 = y' <;> simp [bump, lookupVal, h0, h1, h, ih]

theorem sumVals_bump (m : List (Nat × ℚ)) (y : Nat) :
    sumVals (bump m y) = sumVals m + 1 := by
  induction m with
  | nil => simp [bump, sumVals]
  | cons p rest ih =>
      obtain ⟨y', v⟩ := p
      by_cases h : y' = y <;> simp [bump, sumVals, h, ih] <;> ring

theorem keysOf_bump (m : List (Nat × ℚ)) (y : Nat) :
    keysOf (bump m y) = if y ∈ keysOf m then keysOf m else keysOf m ++ [y] := by
  induction m with
  | nil => simp [bump, keysOf]
  | cons p rest ih =>
      obtain ⟨y0, v⟩ := p
      by_cases h : y0 = y
      · subst h
        simp [bump, keysOf]
      · have hne : ¬ y = y0 := fun h2 => h h2.symm
        have hcond : y ∈ keysOf ((y0, v) :: rest) ↔ y ∈ keysOf rest := by
          simp [keysOf, hne]
        have hkb : keysOf (bump ((y0, v) :: rest) y) = y0 :: keysOf (bump rest y) := by
          simp [bump, h, keysOf]
        by_cases hmem : y ∈ keysOf rest
        · rw [hkb, ih, if_pos hmem, if_pos (hcond.mpr hmem)]
          simp [keysOf]
        · rw [hkb, ih, if_neg hmem, if_neg (fun hc => hmem (hcond.mp hc))]
          simp [keysOf]

theorem nodup_keysOf_bump (m : List (Nat × ℚ)) (y : Nat)
    (h : (keysOf m).Nodup) : (keysOf (bump m y)).Nodup := by
  rw [keysOf_bump]
  by_cases hmem : y ∈ keysOf m
  · simpa [hmem] using h
  · rw [if_neg hmem]
    refine List.Nodup.append h (List.nodup_singleton y) ?_
    intro a ha hb
    rw [List.mem_singleton] at hb
    subst hb
    exact hmem ha

theorem lookupVal_accumulateDays (cal : Calendar) (hol : List Nat)
    (l : List Nat) (m : List (Nat × ℚ)) (y : Nat) :
    lookupVal (accumulateDays cal hol l m) y =
      lookupVal m y +
        ((l.filter (fun d => isWorkingDay hol d && decide (cal.yearOf d = y))).length : ℚ) := by
  induction l generalizing m with
  | nil => simp [accumulateDays]
  | cons d rest ih =>
      simp only [accumulateDays]
      by_cases hw : isWorkingDay hol d
      · rw [if_pos hw, ih]
        by_cases hy : cal.yearOf d = y
        · rw [List.filter_cons_of_pos (by simp [hw, hy]), List.length_cons, hy,
            lookupVal_bump_self]
          push_cast
          ring
        · rw [List.filter_cons_of_neg (by simp [hy]),
            lookupVal_bump_ne _ _ _ (fun h2 => hy h2.symm)]
      · rw [if_neg hw, ih, List.filter_cons_of_neg (by simp [hw])]

theorem sumVals_accumulateDays (cal : Calendar) (hol : List Nat)
    (l : List Nat) (m : List (Nat × ℚ)) :
    sumVals (accumulateDays cal hol l m) =
      sumVals m + ((l.filter (isWorkingDay hol)).length : ℚ) := by
  induction l generalizing m with
  | nil => simp [accumulateDays]
  | cons d rest ih =>
      simp only [accumulateDays]
      by_cases hw : isWorkingDay hol d
      · rw [if_pos hw, ih, List.filter_cons_of_pos hw, List.length_cons, sumVals_bump]
        push_cast
        ring
      · rw [if_neg hw, ih, List.filter_cons_of_neg hw]

theorem nodup_keysOf_accumulateDays (cal : Calendar) (hol : List Nat)
    (l : List Nat) (m : List (Nat × ℚ)) (h : (keysOf m).Nodup) :
    (keysOf (accumulateDays cal hol l m)).Nodup := by
  induction l generalizing m with
  | nil => simpa [accumulateDays]
  | cons d rest ih =>
      by_cases hw : isWorkingDay hol d
      · simp only [accumulateDays, hw, if_true]
        exact ih _ (nodup_keysOf_bump _ _ h)
      · simp only [accumulateDays, hw, if_false]
        exact ih _ h

theorem nodup_keysOf_by_year (cal : Calendar) (hol : List Nat) (s e : Nat)
    (half : Bool) (dby : List (Nat × ℚ))
    (h : calculate_working_days_by_year cal hol s e half = .ok dby) :
    (keysOf dby).Nodup := by
  unfold calculate_working_days_by_year at h
  by_cases hh : half
  · simp only [hh, if_true] at h
    by_cases hse : s ≠ e
    · simp [hse] at h
    · simp only [hse, if_false] at h
      cases h
      simp [keysOf]
  · simp only [hh] at h
    simp only [Bool.false_eq_true, if_false] at h
    cases h
    exact nodup_keysOf_accumulateDays _ _ _ _ (by simp [keysOf])

/-! ### Balance lookup and debit lemmas -/

theorem map_balanceShape_debitFirst (bals : List LeaveBalance) (emp ltId y : Nat) (d : ℚ) :
    (debitFirst bals emp ltId y d).map balanceShape = bals.map balanceShape := by
  induction bals with
  | nil => rfl
  | cons b rest ih =>
      by_cases h : b.employee = emp ∧ b.leaveTypeId = ltId ∧ b.year = y
      · simp [debitFirst, h, balanceShape]
      · simp [debitFirst, h, ih]

theorem findBalance_debitFirst_ne (bals : List LeaveBalance) (emp ltId y y' : Nat)
    (d : ℚ) (h : y' ≠ y) :
    findBalance (debitFirst bals emp ltId y d) emp ltId y' =
      findBalance bals emp ltId y' := by
  induction bals with
  | nil => rfl
  | cons b rest ih =>
      have hne : ¬ y = y' := fun hh => h hh.symm
      have hne' : ¬ y' = y := h
      by_cases hb : b.employee = emp ∧ b.leaveTypeId = ltId ∧ b.year = y
      · have hb' : ¬ (b.employee = emp ∧ b.leaveTypeId = ltId ∧ b.year = y') := by
          rintro ⟨-, -, hy⟩
          exact h (by rw [← hy, hb.2.2])
        simp [debitFirst, hb, findBalance, hb', hne, hne']
      · by_cases hb' : b.employee = emp ∧ b.leaveTypeId = ltId ∧ b.year = y'
        · simp [debitFirst, hb, findBalance, hb', hne, hne']
        · simp [debitFirst, hb, findBalance, hb', hne, hne', ih]

theorem findBalance_debitFirst_self (bals : List LeaveBalance) (emp ltId y : Nat)
    (d : ℚ) (b : LeaveBalance) (h : findBalance bals emp ltId y = some b) :
    findBalance (debitFirst bals emp ltId y d) emp ltId y =
      some { b with used := b.used + d } := by
  induction bals with
  | nil => simp [findBalance] at h
  | cons b0 rest ih =>
      by_cases hb : b0.employee = emp ∧ b0.leaveTypeId = ltId ∧ b0.year = y
      · simp only [findBalance, if_pos hb, Option.some.injEq] at h
        subst h
        simp [debitFirst, hb, findBalance]
      · simp only [findBalance, if_neg hb] at h
        simp [debitFirst, hb, findBalance, ih h]

theorem checkQuota_debitFirst (bals : List LeaveBalance) (emp ltId y : Nat) (d : ℚ)
    (rest : List (Nat × ℚ)) (hy : y ∉ keysOf rest)
    (h : checkQuota bals emp ltId rest = .ok ()) :
    checkQuota (debitFirst bals emp ltId y d) emp ltId rest = .ok () := by
  induction rest with
  | nil => rfl
  | cons p rs ih =>
      obtain ⟨y1, d1⟩ := p
      have hy1 : y1 ≠ y := by
        intro hh
        exact hy (by simp [keysOf, hh])
      have hyrs : y ∉ keysOf rs := by
        intro hh
        exact hy (by simp [keysOf] at hh ⊢; exact Or.inr hh)
      cases hf : findBalance bals emp ltId y1 with
      | none => simp [checkQuota, hf] at h
      | some b1 =>
          simp only [checkQuota, hf] at h
          by_cases hrem : b1.remaining < d1
          · simp [hrem] at h
          · rw [if_neg hrem] at h
            have hf' : findBalance (debitFirst bals emp ltId y d) emp ltId y1 = some b1 :=
              (findBalance_debitFirst_ne bals emp ltId y y1 d hy1).trans hf
            simp only [checkQuota, hf', if_neg hrem]
            exact ih hyrs h

theorem map_balanceShape_applyDebits (emp ltId : Nat) (dby : List (Nat × ℚ))
    (bals : List LeaveBalance) :
    (applyDebits emp ltId dby bals).map balanceShape = bals.map balanceShape := by
  induction dby generalizing bals with
  | nil => rfl
  | cons p rest ih =>
      obtain ⟨y, d⟩ := p
      rw [applyDebits, ih, map_balanceShape_debitFirst]

theorem findBalance_applyDebits_notmem (emp ltId : Nat) (dby : List (Nat × ℚ))
    (bals : List LeaveBalance) (y : Nat) (h : y ∉ keysOf dby) :
    findBalance (applyDebits emp ltId dby bals) emp ltId y =
      findBalance bals emp ltId y := by
  induction dby generalizing bals with
  | nil => rfl
  | cons p rest ih =>
      obtain ⟨y0, d0⟩ := p
      have hy0 : y ≠ y0 := by
        intro hh
        exact h (by simp [keysOf, hh])
      have hrest : y ∉ keysOf rest := by
        intro hh
        exact h (by simp [keysOf] at hh ⊢; exact Or.inr hh)
      rw [applyDebits, ih _ hrest, findBalance_debitFirst_ne _ _ _ _ _ _ hy0]

theorem findBalance_applyDebits_mem (emp ltId : Nat) (dby : List (Nat × ℚ))
    (bals : List LeaveBalance) (y : Nat) (d : ℚ) (b : LeaveBalance)
    (hnd : (keysOf dby).Nodup) (hmem : (y, d) ∈ dby)
    (hf : findBalance bals emp ltId y = some b) :
    findBalance (applyDebits emp ltId dby bals) emp ltId y =
      some { b with used := b.used + d } := by
  induction dby generalizing bals with
  | nil => cases hmem
  | cons p rest ih =>
      obtain ⟨y0, d0⟩ := p
      have hnd' := List.nodup_cons.mp (by simpa only [keysOf, List.map_cons] using hnd)
      have hnd0 : y0 ∉ keysOf rest := hnd'.1
      have hndr : (keysOf rest).Nodup := hnd'.2
      rcases List.mem_cons.mp hmem with heq | hmemr
      · cases heq
        rw [applyDebits]
        rw [findBalance_applyDebits_notmem _ _ _ _ _ hnd0]
        exact findBalance_debitFirst_self bals emp ltId y d b hf
      · have hyk : y ∈ keysOf rest := by
          simp only [keysOf, List.mem_map]
          exact ⟨(y, d), hmemr, rfl⟩
        have hyne : y ≠ y0 := fun hh => hnd0 (hh ▸ hyk)
        rw [applyDebits]
        exact ih _ hndr hmemr
          ((findBalance_debitFirst_ne bals emp ltId y0 y d0 hyne).trans hf)

theorem debitLoop_ok (emp ltId : Nat) (dby : List (Nat × ℚ)) (bals : List LeaveBalance)
    (hnd : (keysOf dby).Nodup) (hq : checkQuota bals emp ltId dby = .ok ()) :
    debitLoop emp ltId dby bals = .ok (applyDebits emp ltId dby bals) := by
  induction dby generalizing bals with
  | nil => rfl
  | cons p rest ih =>
      obtain ⟨y, d⟩ := p
      have hnd' := List.nodup_cons.mp (by simpa only [keysOf, List.map_cons] using hnd)
      have hnd0 : y ∉ keysOf rest := hnd'.1
      have hndr : (keysOf rest).Nodup := hnd'.2
      cases hf : findBalance bals emp ltId y with
      | none => simp [checkQuota, hf] at hq
      | some b =>
          simp only [checkQuota, hf] at hq
          by_cases hrem : b.remaining < d
          · simp [hrem] at hq
          · rw [if_neg hrem] at hq
            simp only [debitLoop, hf, if_neg hrem, applyDebits]
            exact ih _ hndr (checkQuota_debitFirst bals emp ltId y d rest hnd0 hq)

theorem map_balanceShape_debitLoop (emp ltId : Nat) (dby : List (Nat × ℚ))
    (bals : List LeaveBalance) :
    (loopBalances (debitLoop emp ltId dby bals)).map balanceShape =
      bals.map balanceShape := by
  induction dby generalizing bals with
  | nil => rfl
  | cons p rest ih =>
      obtain ⟨y, d⟩ := p
      cases hf : findBalance bals emp ltId y with
      | none => simp [debitLoop, hf, loopBalances]
      | some b =>
          by_cases hrem : b.remaining < d
          · simp [debitLoop, hf, hrem, loopBalances]
          · simp only [debitLoop, hf, if_neg hrem]
            rw [ih, map_balanceShape_debitFirst]

/-! ### Quota-check characterizations -/

theorem checkQuota_ok_iff (bals : List LeaveBalance) (emp ltId : Nat)
    (dby : List (Nat × ℚ)) :
    checkQuota bals emp ltId dby = .ok () ↔
      ∀ p ∈ dby, ∃ b, findBalance bals emp ltId p.1 = some b ∧ ¬ b.remaining < p.2 := by
  induction dby with
  | nil => simp [checkQuota]
  | cons q rest ih =>
      obtain ⟨y, d⟩ := q
      cases hf : findBalance bals emp ltId y with
      | none =>
          simp only [checkQuota, hf]
          constructor
          · intro h
            exact Except.noConfusion h
          · intro h
            obtain ⟨b, hb, -⟩ := h (y, d) (List.mem_cons_self _ _)
            rw [hf] at hb
            exact Option.noConfusion hb
      | some b =>
          by_cases hrem : b.remaining < d
          · simp only [checkQuota, hf, if_pos hrem]
            constructor
            · intro h
              exact Except.noConfusion h
            · intro h
              obtain ⟨b', hb', hr'⟩ := h (y, d) (List.mem_cons_self _ _)
              rw [hf] at hb'
              cases hb'
              exact absurd hrem hr'
          · simp only [checkQuota, hf, if_neg hrem]
            rw [ih]
            constructor
            · intro h p hp
              rcases List.mem_cons.mp hp with heq | hm
              · cases heq
                exact ⟨b, hf, hrem⟩
              · exact h p hm
            · intro h p hp
              exact h p (List.mem_cons_of_mem _ hp)

theorem checkQuota_insufficient_iff (bals : List LeaveBalance) (emp ltId : Nat)
    (dby : List (Nat × ℚ))
    (hall : ∀ p ∈ dby, (findBalance bals emp ltId p.1).isSome) :
    (∃ y, checkQuota bals emp ltId dby = .error (.notEnoughBalance y)) ↔
      ∃ p ∈ dby, ∃ b, findBalance bals emp ltId p.1 = some b ∧ b.remaining < p.2 := by
  induction dby with
  | nil => simp [checkQuota]
  | cons q rest ih =>
      obtain ⟨y0, d0⟩ := q
      have hall0 := hall (y0, d0) (List.mem_cons_self _ _)
      cases hf : findBalance bals emp ltId y0 with
      | none =>
          rw [hf] at hall0
          exact absurd hall0 (by simp)
      | some b0 =>
          by_cases hrem : b0.remaining < d0
          · simp only [checkQuota, hf, if_pos hrem]
            constructor
            · intro _
              exact ⟨(y0, d0), List.mem_cons_self _ _, b0, hf, hrem⟩
            · intro _
              exact ⟨y0, rfl⟩
          · simp only [checkQuota, hf, if_neg hrem]
            rw [ih (fun p hp => hall p (List.mem_cons_of_mem _ hp))]
            constructor
            · rintro ⟨p, hp, hb⟩
              exact ⟨p, List.mem_cons_of_mem _ hp, hb⟩
            · rintro ⟨p, hp, b, hb, hr⟩
              rcases List.mem_cons.mp hp with heq | hm
              · cases heq
                rw [hf] at hb
                cases hb
                exact absurd hr hrem
              · exact ⟨p, hm, b, hb, hr⟩

theorem checkQuota_missing (bals : List LeaveBalance) (emp ltId : Nat)
    (dby : List (Nat × ℚ))
    (hmiss : ∃ p ∈ dby, findBalance bals emp ltId p.1 = none)
    (hok : ∀ p ∈ dby, ∀ b, findBalance bals emp ltId p.1 = some b → ¬ b.remaining < p.2) :
    ∃ y, checkQuota bals emp ltId dby = .error (.noBalance y) := by
  induction dby with
  | nil =>
      obtain ⟨p, hp, -⟩ := hmiss
      cases hp
  | cons q rest ih =>
      obtain ⟨y0, d0⟩ := q
      cases hf : findBalance bals emp ltId y0 with
      | none => exact ⟨y0, by simp [checkQuota, hf]⟩
      | some b0 =>
          have hr0 := hok (y0, d0) (List.mem_cons_self _ _) b0 hf
          simp only [checkQuota, hf, if_neg hr0]
          apply ih
          · obtain ⟨p, hp, hpn⟩ := hmiss
            rcases List.mem_cons.mp hp with heq | hm
            · cases heq
              rw [hf] at hpn
              exact Option.noConfusion hpn
            · exact ⟨p, hm, hpn⟩
          · exact fun p hp => hok p (List.mem_cons_of_mem _ hp)

/-! ### Decomposition of a successful validation -/

theorem validate_ok_elim (cal : Calendar) (db : DB) (emp : Nat) (lt : LeaveType)
    (s e : Nat) (half : Bool) (excluding : Option Nat) (t : ℚ)
    (h : validate_leave_request cal db emp lt s e half excluding = .ok t) :
    ∃ dby, calculate_working_days_by_year cal db.holidays s e half = .ok dby ∧
      t = sumVals dby ∧
      (lt.is_paid = true → checkQuota db.balances emp lt.id dby = .ok ()) := by
  unfold validate_leave_request at h
  by_cases h1 : e < s
  · rw [if_pos h1] at h
    exact Except.noConfusion h
  rw [if_neg h1] at h
  by_cases h2 : s < cal.today
  · rw [if_pos h2] at h
    exact Except.noConfusion h
  rw [if_neg h2] at h
  by_cases h3 : (half && !lt.allow_half_day) = true
  · rw [if_pos h3] at h
    exact Except.noConfusion h
  rw [if_neg h3] at h
  by_cases h4 : db.requests.any (overlapsCandidate emp s e excluding) = true
  · rw [if_pos h4] at h
    exact Except.noConfusion h
  rw [if_neg h4] at h
  cases hdby : calculate_working_days_by_year cal db.holidays s e half with
  | error err =>
      rw [hdby] at h
      exact Except.noConfusion h
  | ok dby =>
      rw [hdby] at h
      refine ⟨dby, rfl, ?_⟩
      by_cases h5 : lt.is_paid = true
      · rw [show (!lt.is_paid) = false by simp [h5]] at h
        simp only [Bool.false_eq_true, if_false] at h
        cases hq : checkQuota db.balances emp lt.id dby with
        | error err =>
            rw [hq] at h
            exact Except.noConfusion h
        | ok u =>
            cases u
            rw [hq] at h
            injection h with ht
            exact ⟨ht.symm, fun _ => rfl⟩
      · rw [Bool.not_eq_true] at h5
        rw [show (!lt.is_paid) = true by simp [h5]] at h
        simp only [if_true] at h
        injection h with ht
        exact ⟨ht.symm, fun hp => by rw [h5] at hp; exact Bool.noConfusion hp⟩

/-! ### Calculator lemmas -/

theorem foldl_working_count (hol : List Nat) (l : List Nat) (acc : ℚ) :
    l.foldl (fun acc d => if isWorkingDay hol d then acc + 1 else acc) acc =
      acc + ((l.filter (isWorkingDay hol)).length : ℚ) := by
  induction l generalizing acc with
  | nil => simp
  | cons d rest ih =>
      by_cases hw : isWorkingDay hol d
      · rw [List.foldl_cons, if_pos hw, ih, List.filter_cons_of_pos hw, List.length_cons]
        push_cast
        ring
      · rw [List.foldl_cons, if_neg hw, ih, List.filter_cons_of_neg hw]

theorem accumulateDays_nonworking (cal : Calendar) (hol : List Nat)
    (l : List Nat) (m : List (Nat × ℚ))
    (h : ∀ d ∈ l, isWorkingDay hol d = false) :
    accumulateDays cal hol l m = m := by
  induction l with
  | nil => rfl
  | cons d rest ih =>
      have hd : isWorkingDay hol d = false := h d (List.mem_cons_self _ _)
      simp only [accumulateDays, hd, Bool.false_eq_true, if_false]
      exact ih (fun d' hd' => h d' (List.mem_cons_of_mem _ hd'))

theorem by_year_not_half (cal : Calendar) (hol : List Nat) (s e : Nat) :
    calculate_working_days_by_year cal hol s e false =
      .ok (accumulateDays cal hol (rangeList s e) []) := rfl

theorem length_rangeList (s e : Nat) : (rangeList s e).length = e + 1 - s := by
  simp [rangeList]

/-! ### Case computations of validate_leave_request -/

theorem by_year_error_shape (cal : Calendar) (hol : List Nat) (s e : Nat)
    (half : Bool) (err : Err)
    (h : calculate_working_days_by_year cal hol s e half = .error err) :
    err = .halfDayRange := by
  unfold calculate_working_days_by_year at h
  by_cases hh : half = true
  · rw [if_pos hh] at h
    by_cases hne : s ≠ e
    · rw [if_pos hne] at h
      injection h with he
      exact he.symm
    · rw [if_neg hne] at h
      exact Except.noConfusion h
  · rw [if_neg hh] at h
    exact Except.noConfusion h

theorem checkQuota_error_shape (bals : List LeaveBalance) (emp ltId : Nat)
    (dby : List (Nat × ℚ)) (err : Err)
    (h : checkQuota bals emp ltId dby = .error err) :
    ∃ y, err = .noBalance y ∨ err = .notEnoughBalance y := by
  induction dby with
  | nil => exact Except.noConfusion h
  | cons p rest ih =>
      obtain ⟨y, d⟩ := p
      cases hf : findBalance bals emp ltId y with
      | none =>
          simp only [checkQuota, hf, Except.error.injEq] at h
          exact ⟨y, Or.inl h.symm⟩
      | some b =>
          simp only [checkQuota, hf] at h
          by_cases hrem : b.remaining < d
          · rw [if_pos hrem] at h
            injection h with he
            exact ⟨y, Or.inr he.symm⟩
          · rw [if_neg hrem] at h
            exact ih h

theorem overlapsCandidate_iff (emp s e : Nat) (excluding : Option Nat)
    (r : LeaveRequest) :
    overlapsCandidate emp s e excluding r = true ↔
      (r.employee = emp ∧ (r.status = Status.pending ∨ r.status = Status.approved) ∧
        r.start_date ≤ e ∧ s ≤ r.end_date ∧
        ∀ pk, excluding = some pk → r.id ≠ pk) := by
  cases excluding with
  | none => simp [overlapsCandidate, and_assoc]
  | some pk => simp [overlapsCandidate, and_assoc]

theorem validate_eq_endBeforeStart (cal : Calendar) (db : DB) (emp : Nat)
    (lt : LeaveType) (s e : Nat) (half : Bool) (excluding : Option Nat)
    (h1 : e < s) :
    validate_leave_request cal db emp lt s e half excluding = .error .endBeforeStart := by
  unfold validate_leave_request
  rw [if_pos h1]

theorem validate_eq_pastDate (cal : Calendar) (db : DB) (emp : Nat)
    (lt : LeaveType) (s e : Nat) (half : Bool) (excluding : Option Nat)
    (h1 : ¬ e < s) (h2 : s < cal.today) :
    validate_leave_request cal db emp lt s e half excluding = .error .pastDate := by
  unfold validate_leave_request
  rw [if_neg h1, if_pos h2]

theorem validate_eq_halfDayNotAllowed (cal : Calendar) (db : DB) (emp : Nat)
    (lt : LeaveType) (s e : Nat) (half : Bool) (excluding : Option Nat)
    (h1 : ¬ e < s) (h2 : ¬ s < cal.today)
    (h3 : (half && !lt.allow_half_day) = true) :
    validate_leave_request cal db emp lt s e half excluding =
      .error .halfDayNotAllowed := by
  unfold validate_leave_request
  rw [if_neg h1, if_neg h2, if_pos h3]

theorem validate_eq_overlapping (cal : Calendar) (db : DB) (emp : Nat)
    (lt : LeaveType) (s e : Nat) (half : Bool) (excluding : Option Nat)
    (h1 : ¬ e < s) (h2 : ¬ s < cal.today)
    (h3 : (half && !lt.allow_half_day) = false)
    (h4 : db.requests.any (overlapsCandidate emp s e excluding) = true) :
    validate_leave_request cal db emp lt s e half excluding = .error .overlapping := by
  unfold validate_leave_request
  rw [if_neg h1, if_neg h2,
    if_neg (show ¬ ((half && !lt.allow_half_day) = true) by simp [h3]),
    if_pos h4]

theorem validate_eq_of_by_year_error (cal : Calendar) (db : DB) (emp : Nat)
    (lt : LeaveType) (s e : Nat) (half : Bool) (excluding : Option Nat) (err : Err)
    (h1 : ¬ e < s) (h2 : ¬ s < cal.today)
    (h3 : (half && !lt.allow_half_day) = false)
    (h4 : db.requests.any (overlapsCandidate emp s e excluding) = false)
    (hdb : calculate_working_days_by_year cal db.holidays s e half = .error err) :
    validate_leave_request cal db emp lt s e half excluding = .error err := by
  unfold validate_leave_request
  rw [if_neg h1, if_neg h2,
    if_neg (show ¬ ((half && !lt.allow_half_day) = true) by simp [h3]),
    if_neg (show ¬ (db.requests.any (overlapsCandidate emp s e excluding) = true) by
      simp [h4]),
    hdb]

theorem validate_eq_unpaid (cal : Calendar) (db : DB) (emp : Nat)
    (lt : LeaveType) (s e : Nat) (half : Bool) (excluding : Option Nat)
    (dby : List (Nat × ℚ))
    (h1 : ¬ e < s) (h2 : ¬ s < cal.today)
    (h3 : (half && !lt.allow_half_day) = false)
    (h4 : db.requests.any (overlapsCandidate emp s e excluding) = false)
    (hdb : calculate_working_days_by_year cal db.holidays s e half = .ok dby)
    (hp : lt.is_paid = false) :
    validate_leave_request cal db emp lt s e half excluding = .ok (sumVals dby) := by
  unfold validate_leave_request
  rw [if_neg h1, if_neg h2,
    if_neg (show ¬ ((half && !lt.allow_half_day) = true) by simp [h3]),
    if_neg (show ¬ (db.requests.any (overlapsCandidate emp s e excluding) = true) by
      simp [h4]),
    hdb]
  show (if !lt.is_paid then _ else _) = _
  rw [if_pos (show (!lt.is_paid) = true by simp [hp])]

theorem validate_eq_quota_error (cal : Calendar) (db : DB) (emp : Nat)
    (lt : LeaveType) (s e : Nat) (half : Bool) (excluding : Option Nat)
    (dby : List (Nat × ℚ)) (err : Err)
    (h1 : ¬ e < s) (h2 : ¬ s < cal.today)
    (h3 : (half && !lt.allow_half_day) = false)
    (h4 : db.requests.any (overlapsCandidate emp s e excluding) = false)
    (hdb : calculate_working_days_by_year cal db.holidays s e half = .ok dby)
    (hp : lt.is_paid = true)
    (hq : checkQuota db.balances emp lt.id dby = .error err) :
    validate_leave_request cal db emp lt s e half excluding = .error err := by
  unfold validate_leave_request
  rw [if_neg h1, if_neg h2,
    if_neg (show ¬ ((half && !lt.allow_half_day) = true) by simp [h3]),
    if_neg (show ¬ (db.requests.any (overlapsCandidate emp s e excluding) = true) by
      simp [h4]),
    hdb]
  show (if !lt.is_paid then _ else _) = _
  rw [if_neg (show ¬ ((!lt.is_paid) = true) by simp [hp]), hq]

theorem validate_eq_quota_ok (cal : Calendar) (db : DB) (emp : Nat)
    (lt : LeaveType) (s e : Nat) (half : Bool) (excluding : Option Nat)
    (dby : List (Nat × ℚ))
    (h1 : ¬ e < s) (h2 : ¬ s < cal.today)
    (h3 : (half && !lt.allow_half_day) = false)
    (h4 : db.requests.any (overlapsCandidate emp s e excluding) = false)
    (hdb : calculate_working_days_by_year cal db.holidays s e half = .ok dby)
    (hp : lt.is_paid = true)
    (hq : checkQuota db.balances emp lt.id dby = .ok ()) :
    validate_leave_request cal db emp lt s e half excluding = .ok (sumVals dby) := by
  unfold validate_leave_request
  rw [if_neg h1, if_neg h2,
    if_neg (show ¬ ((half && !lt.allow_half_day) = true) by simp [h3]),
    if_neg (show ¬ (db.requests.any (overlapsCandidate emp s e excluding) = true) by
      simp [h4]),
    hdb]
  show (if !lt.is_paid then _ else _) = _
  rw [if_neg (show ¬ ((!lt.is_paid) = true) by simp [hp]), hq]

/-! ### Claims about the working-day calculators -/

/-- Claim C6: with `half_day = false` and `start ≤ end`,
`calculate_working_days_by_year` succeeds and maps each calendar year to the
number of dates of the inclusive range falling in that year whose weekday is
Monday–Friday and which are not holidays; when no date of the range is a
weekend or holiday, the total equals the number of calendar days in the
range. -/
theorem claim_C6 (cal : Calendar) (hol : List Nat) (s e : Nat) (hse : s ≤ e) :
    ∃ m, calculate_working_days_by_year cal hol s e false = .ok m ∧
      (∀ y, lookupVal m y =
        (((rangeList s e).filter
            (fun d => isWorkingDay hol d && decide (cal.yearOf d = y))).length : ℚ)) ∧
      ((∀ d ∈ rangeList s e, isWorkingDay hol d = true) →
        sumVals m = ((e + 1 - s : Nat) : ℚ)) := by
  refine ⟨_, by_year_not_half cal hol s e, ?_, ?_⟩
  · intro y
    rw [lookupVal_accumulateDays]
    simp [lookupVal]
  · intro hall
    rw [sumVals_accumulateDays]
    have hfilter : (rangeList s e).filter (isWorkingDay hol) = rangeList s e :=
      List.filter_eq_self.mpr hall
    rw [hfilter, length_rangeList]
    simp [sumVals]

/-- Claim C6 witness: the range day 100 … day 104 (Wednesday–Sunday) of the
sample calendar, with no holidays. -/
theorem claim_C6_witness :
    ∃ m, calculate_working_days_by_year cal0 [] 100 104 false = .ok m ∧
      (∀ y, lookupVal m y =
        (((rangeList 100 104).filter
            (fun d => isWorkingDay [] d && decide (cal0.yearOf d = y))).length : ℚ)) ∧
      ((∀ d ∈ rangeList 100 104, isWorkingDay [] d = true) →
        sumVals m = ((104 + 1 - 100 : Nat) : ℚ)) :=
  claim_C6 cal0 [] 100 104 (by decide)

/-- Claim C7: for every date `D` — weekend or holiday included — the half-day
calculation on `(D, D)` yields exactly `{D.year: 0.5}`, and on two distinct
dates it fails with the `InvalidRangeError` message for half-day ranges. -/
theorem claim_C7 (cal : Calendar) (hol : List Nat) :
    (∀ D, calculate_working_days_by_year cal hol D D true =
      .ok [(cal.yearOf D, 1 / 2)]) ∧
    (∀ D1 D2, D1 ≠ D2 →
      calculate_working_days_by_year cal hol D1 D2 true = .error .halfDayRange) := by
  constructor
  · intro D
    simp [calculate_working_days_by_year]
  · intro D1 D2 h
    simp [calculate_working_days_by_year, h]

/-- Claim C7 witness: day 103 is a Saturday of the sample calendar and still
yields a half day; days 100 and 101 are distinct and fail. -/
theorem claim_C7_witness :
    calculate_working_days_by_year cal0 [] 103 103 true = .ok [(cal0.yearOf 103, 1 / 2)] ∧
    calculate_working_days_by_year cal0 [] 100 101 true = .error .halfDayRange :=
  ⟨(claim_C7 cal0 []).1 103, (claim_C7 cal0 []).2 100 101 (by decide)⟩

/-- Claim C8: whenever the year-partitioned calculator accepts an input with
`start ≤ end`, the legacy scalar calculator returns exactly the sum of its
values (half-day inputs included). -/
theorem claim_C8 (cal : Calendar) (hol : List Nat) (s e : Nat) (half : Bool)
    (m : List (Nat × ℚ)) (hse : s ≤ e)
    (hm : calculate_working_days_by_year cal hol s e half = .ok m) :
    calculate_working_days hol s e half = sumVals m := by
  cases half with
  | true =>
      unfold calculate_working_days_by_year at hm
      by_cases hne : s ≠ e
      · simp [hne] at hm
      · simp only [if_true, hne, if_false] at hm
        cases hm
        simp [calculate_working_days, sumVals]
  | false =>
      rw [by_year_not_half] at hm
      cases hm
      rw [calculate_working_days]
      simp only [Bool.false_eq_true, if_false]
      rw [foldl_working_count, sumVals_accumulateDays]
      simp [sumVals]

/-- Claim C8 witness: the two calculators agree on the sample range
day 100 … day 104 and on a half day. -/
theorem claim_C8_witness :
    calculate_working_days [] 100 104 false =
      sumVals (accumulateDays cal0 [] (rangeList 100 104) []) ∧
    calculate_working_days [] 103 103 true = sumVals [(cal0.yearOf 103, 1 / 2)] :=
  ⟨claim_C8 cal0 [] 100 104 false _ (by decide) rfl,
   claim_C8 cal0 [] 103 103 true _ (by decide) rfl⟩

/-! ### Case computations of approve_leave_request and provisioning -/

theorem approve_eq_notPending (cal : Calendar) (db : DB) (req : LeaveRequest)
    (ap : Nat) (c : String) (h : req.status ≠ Status.pending) :
    approve_leave_request cal db req ap c = .err .notPending db.balances := by
  unfold approve_leave_request
  rw [if_pos h]

theorem approve_eq_validate_error (cal : Calendar) (db : DB) (req : LeaveRequest)
    (ap : Nat) (c : String) (err : Err) (h : req.status = Status.pending)
    (hv : validate_leave_request cal db req.employee req.leave_type
      req.start_date req.end_date req.half_day (some req.id) = .error err) :
    approve_leave_request cal db req ap c = .err err db.balances := by
  unfold approve_leave_request
  rw [if_neg (show ¬ req.status ≠ Status.pending by simp [h])]
  simp only [hv]

theorem approve_eq_ok (cal : Calendar) (db : DB) (req : LeaveRequest)
    (ap : Nat) (c : String) (t : ℚ) (dby : List (Nat × ℚ))
    (h : req.status = Status.pending)
    (hv : validate_leave_request cal db req.employee req.leave_type
      req.start_date req.end_date req.half_day (some req.id) = .ok t)
    (hdb : calculate_working_days_by_year cal db.holidays req.start_date
      req.end_date req.half_day = .ok dby) :
    approve_leave_request cal db req ap c =
      .ok (if req.leave_type.is_paid then
             applyDebits req.employee req.leave_type.id dby db.balances
           else db.balances)
        { req with
          status := Status.approved
          approver := some ap
          approve_comment := c } := by
  obtain ⟨dby', hdb', -, hqpart⟩ := validate_ok_elim cal db req.employee
    req.leave_type req.start_date req.end_date req.half_day (some req.id) t hv
  rw [hdb] at hdb'
  injection hdb' with hd
  subst hd
  unfold approve_leave_request
  rw [if_neg (show ¬ req.status ≠ Status.pending by simp [h])]
  simp only [hv, hdb]
  by_cases hpaid : req.leave_type.is_paid = true
  · have hq := hqpart hpaid
    have hnd := nodup_keysOf_by_year cal db.holidays req.start_date
      req.end_date req.half_day dby hdb
    simp only [hpaid, if_true,
      debitLoop_ok req.employee req.leave_type.id dby db.balances hnd hq]
  · have hpaid' : req.leave_type.is_paid = false := by
      revert hpaid
      cases req.leave_type.is_paid <;> simp
    simp only [hpaid', Bool.false_eq_true, if_false]

theorem foldl_provisionOne_append (emp year : Nat) (lts : List LeaveType)
    (bals : List LeaveBalance) :
    ∃ newRows, lts.foldl (provisionOne emp year) bals = bals ++ newRows := by
  induction lts generalizing bals with
  | nil => exact ⟨[], by simp⟩
  | cons lt rest ih =>
      rw [List.foldl_cons]
      cases hf : findBalance bals emp lt.id year with
      | some b =>
          have hkeep : provisionOne emp year bals lt = bals := by
            simp [provisionOne, hf]
          rw [hkeep]
          exact ih bals
      | none =>
          have hrow : provisionOne emp year bals lt =
              bals ++ [{ employee := emp, leaveTypeId := lt.id, year := year,
                         allocated := lt.default_allocation, used := 0 }] := by
            simp [provisionOne, hf]
          rw [hrow]
          obtain ⟨n2, hn2⟩ := ih
            (bals ++ [{ employee := emp, leaveTypeId := lt.id, year := year,
                        allocated := lt.default_allocation, used := 0 }])
          refine ⟨[{ employee := emp, leaveTypeId := lt.id, year := year,
                     allocated := lt.default_allocation, used := 0 }] ++ n2, ?_⟩
          rw [hn2, List.append_assoc]

/-! ### Claims about validation order and the overlap check -/

/-- Claim C3: `validate_leave_request` performs its checks in the specified
order with short-circuit on the first failure — (1) end before start,
(2) start before today (for any leave type), (3) disallowed half day,
(4) overlap, (5) half day spanning multiple dates, then the balance checks —
and on success returns the chargeable days summed over years. -/
theorem claim_C3 (cal : Calendar) (db : DB) (emp : Nat) (lt : LeaveType)
    (s e : Nat) (half : Bool) (excluding : Option Nat) :
    (e < s →
      validate_leave_request cal db emp lt s e half excluding =
        .error .endBeforeStart) ∧
    (¬ e < s → s < cal.today →
      validate_leave_request cal db emp lt s e half excluding = .error .pastDate) ∧
    (¬ e < s → ¬ s < cal.today → half = true → lt.allow_half_day = false →
      validate_leave_request cal db emp lt s e half excluding =
        .error .halfDayNotAllowed) ∧
    (¬ e < s → ¬ s < cal.today → (half && !lt.allow_half_day) = false →
      db.requests.any (overlapsCandidate emp s e excluding) = true →
      validate_leave_request cal db emp lt s e half excluding =
        .error .overlapping) ∧
    (¬ e < s → ¬ s < cal.today → (half && !lt.allow_half_day) = false →
      db.requests.any (overlapsCandidate emp s e excluding) = false →
      half = true → s ≠ e →
      validate_leave_request cal db emp lt s e half excluding =
        .error .halfDayRange) ∧
    (∀ dby, ¬ e < s → ¬ s < cal.today → (half && !lt.allow_half_day) = false →
      db.requests.any (overlapsCandidate emp s e excluding) = false →
      calculate_working_days_by_year cal db.holidays s e half = .ok dby →
      (lt.is_paid = true → checkQuota db.balances emp lt.id dby = .ok ()) →
      validate_leave_request cal db emp lt s e half excluding =
        .ok (sumVals dby)) := by
  refine ⟨?_, ?_, ?_, ?_, ?_, ?_⟩
  · intro h1
    exact validate_eq_endBeforeStart cal db emp lt s e half excluding h1
  · intro h1 h2
    exact validate_eq_pastDate cal db emp lt s e half excluding h1 h2
  · intro h1 h2 hh ha
    exact validate_eq_halfDayNotAllowed cal db emp lt s e half excluding h1 h2
      (by simp [hh, ha])
  · intro h1 h2 h3 h4
    exact validate_eq_overlapping cal db emp lt s e half excluding h1 h2 h3 h4
  · intro h1 h2 h3 h4 hh hne
    refine validate_eq_of_by_year_error cal db emp lt s e half excluding
      .halfDayRange h1 h2 h3 h4 ?_
    simp [calculate_working_days_by_year, hh, hne]
  · intro dby h1 h2 h3 h4 hdb hq
    by_cases hp : lt.is_paid = true
    · exact validate_eq_quota_ok cal db emp lt s e half excluding dby
        h1 h2 h3 h4 hdb hp (hq hp)
    · exact validate_eq_unpaid cal db emp lt s e half excluding dby
        h1 h2 h3 h4 hdb (Bool.not_eq_true _ ▸ hp)

/-- Claim C3 witness: past-date failure, overlap failure, and a successful
validation on the sample database. -/
theorem claim_C3_witness :
    validate_leave_request cal0 db0 7 lt0 50 60 false none = .error .pastDate ∧
    validate_leave_request cal0 db0 7 lt0 100 104 false none = .error .overlapping ∧
    validate_leave_request cal0 db0 7 lt0 100 101 false (some 5) =
      .ok (sumVals [(0, 2)]) :=
  ⟨(claim_C3 cal0 db0 7 lt0 50 60 false none).2.1 (by decide) (by decide),
   (claim_C3 cal0 db0 7 lt0 100 104 false none).2.2.2.1 (by decide) (by decide)
     (by decide) (by decide),
   (claim_C3 cal0 db0 7 lt0 100 101 false (some 5)).2.2.2.2.2 [(0, 2)]
     (by decide) (by decide) (by decide) (by decide)
     (by norm_num [calculate_working_days_by_year, accumulateDays, rangeList,
       isWorkingDay, bump, cal0, db0, List.range_succ])
     (fun _ => by norm_num [checkQuota, findBalance, db0, bal0, lt0,
       LeaveBalance.remaining])⟩

/-- Claim C4: once the three prior checks pass, validation fails with the
overlap error exactly when some other request of the same employee — distinct
from the excluded instance — with status Pending or Approved has an inclusive
date range intersecting the candidate range; Rejected or Cancelled requests
never block. -/
theorem claim_C4 (cal : Calendar) (db : DB) (emp : Nat) (lt : LeaveType)
    (s e : Nat) (half : Bool) (excluding : Option Nat)
    (h1 : ¬ e < s) (h2 : ¬ s < cal.today)
    (h3 : (half && !lt.allow_half_day) = false) :
    validate_leave_request cal db emp lt s e half excluding = .error .overlapping ↔
      ∃ r ∈ db.requests, r.employee = emp ∧
        (r.status = Status.pending ∨ r.status = Status.approved) ∧
        r.start_date ≤ e ∧ s ≤ r.end_date ∧
        ∀ pk, excluding = some pk → r.id ≠ pk := by
  by_cases h4 : db.requests.any (overlapsCandidate emp s e excluding) = true
  · constructor
    · intro _
      obtain ⟨r, hr, hc⟩ := List.any_eq_true.mp h4
      exact ⟨r, hr, (overlapsCandidate_iff emp s e excluding r).mp hc⟩
    · intro _
      exact validate_eq_overlapping cal db emp lt s e half excluding h1 h2 h3 h4
  · have h4' : db.requests.any (overlapsCandidate emp s e excluding) = false := by
      revert h4
      cases db.requests.any (overlapsCandidate emp s e excluding) <;> simp
    constructor
    · intro h
      exfalso
      cases hdb : calculate_working_days_by_year cal db.holidays s e half with
      | error err =>
          have hv := validate_eq_of_by_year_error cal db emp lt s e half excluding
            err h1 h2 h3 h4' hdb
          rw [hv] at h
          injection h with he
          rw [by_year_error_shape cal db.holidays s e half err hdb] at he
          exact Err.noConfusion he
      | ok dby =>
          by_cases hp : lt.is_paid = true
          · cases hq : checkQuota db.balances emp lt.id dby with
            | error err =>
                have hv := validate_eq_quota_error cal db emp lt s e half excluding
                  dby err h1 h2 h3 h4' hdb hp hq
                rw [hv] at h
                injection h with he
                obtain ⟨y, hy | hy⟩ := checkQuota_error_shape _ _ _ _ _ hq <;>
                  (rw [hy] at he; exact Err.noConfusion he)
            | ok u =>
                cases u
                have hv := validate_eq_quota_ok cal db emp lt s e half excluding
                  dby h1 h2 h3 h4' hdb hp hq
                rw [hv] at h
                exact Except.noConfusion h
          · have hv := validate_eq_unpaid cal db emp lt s e half excluding dby
              h1 h2 h3 h4' hdb (Bool.not_eq_true _ ▸ hp)
            rw [hv] at h
            exact Except.noConfusion h
    · rintro ⟨r, hr, hprops⟩
      exact absurd
        (List.any_eq_true.mpr
          ⟨r, hr, (overlapsCandidate_iff emp s e excluding r).mpr hprops⟩)
        (by rw [h4']; simp)

/-- Claim C4 witness: the candidate range day 100 … day 104 overlaps the
pending sample request (days 100–101) of the same employee. -/
theorem claim_C4_witness :
    validate_leave_request cal0 db0 7 lt0 100 104 false none = .error .overlapping ↔
      ∃ r ∈ db0.requests, r.employee = 7 ∧
        (r.status = Status.pending ∨ r.status = Status.approved) ∧
        r.start_date ≤ 104 ∧ 100 ≤ r.end_date ∧
        ∀ pk, (none : Option Nat) = some pk → r.id ≠ pk :=
  claim_C4 cal0 db0 7 lt0 100 104 false none (by decide) (by decide) (by decide)

/-- Claim C5: for a paid leave type (earlier checks passing), validation
fails with the insufficient-balance error exactly when some year of the
computed `days_by_year` has chargeable days strictly exceeding the
`remaining = allocated - used` of that year; if every needed row exists and every year
fits (equality included) it succeeds with the summed days; and a missing
balance row (no year over its remaining) fails with the
balance-not-found error. -/
theorem claim_C5 (cal : Calendar) (db : DB) (emp : Nat) (lt : LeaveType)
    (s e : Nat) (half : Bool) (excluding : Option Nat) (dby : List (Nat × ℚ))
    (h1 : ¬ e < s) (h2 : ¬ s < cal.today)
    (h3 : (half && !lt.allow_half_day) = false)
    (h4 : db.requests.any (overlapsCandidate emp s e excluding) = false)
    (hdb : calculate_working_days_by_year cal db.holidays s e half = .ok dby)
    (hp : lt.is_paid = true) :
    ((∀ p ∈ dby, (findBalance db.balances emp lt.id p.1).isSome) →
      ((∃ y, validate_leave_request cal db emp lt s e half excluding =
          .error (.notEnoughBalance y)) ↔
        ∃ p ∈ dby, ∃ b, findBalance db.balances emp lt.id p.1 = some b ∧
          b.remaining < p.2)) ∧
    ((∀ p ∈ dby, ∃ b, findBalance db.balances emp lt.id p.1 = some b ∧
        p.2 ≤ b.remaining) →
      validate_leave_request cal db emp lt s e half excluding =
        .ok (sumVals dby)) ∧
    (((∃ p ∈ dby, findBalance db.balances emp lt.id p.1 = none) ∧
        (∀ p ∈ dby, ∀ b, findBalance db.balances emp lt.id p.1 = some b →
          p.2 ≤ b.remaining)) →
      ∃ y, validate_leave_request cal db emp lt s e half excluding =
        .error (.noBalance y)) := by
  refine ⟨?_, ?_, ?_⟩
  · intro hall
    constructor
    · rintro ⟨y, hv⟩
      refine (checkQuota_insufficient_iff db.balances emp lt.id dby hall).mp ?_
      cases hq : checkQuota db.balances emp lt.id dby with
      | error err =>
          have hveq := validate_eq_quota_error cal db emp lt s e half excluding
            dby err h1 h2 h3 h4 hdb hp hq
          rw [hveq] at hv
          injection hv with he
          exact ⟨y, by rw [he]⟩
      | ok u =>
          cases u
          have hveq := validate_eq_quota_ok cal db emp lt s e half excluding
            dby h1 h2 h3 h4 hdb hp hq
          rw [hveq] at hv
          exact Except.noConfusion hv
    · intro hex
      obtain ⟨y, hq⟩ :=
        (checkQuota_insufficient_iff db.balances emp lt.id dby hall).mpr hex
      exact ⟨y, validate_eq_quota_error cal db emp lt s e half excluding
        dby _ h1 h2 h3 h4 hdb hp hq⟩
  · intro hall2
    have hq : checkQuota db.balances emp lt.id dby = .ok () :=
      (checkQuota_ok_iff db.balances emp lt.id dby).mpr
        (fun p hp2 => by
          obtain ⟨b, hb, hle⟩ := hall2 p hp2
          exact ⟨b, hb, not_lt.mpr hle⟩)
    exact validate_eq_quota_ok cal db emp lt s e half excluding dby
      h1 h2 h3 h4 hdb hp hq
  · rintro ⟨hmiss, hbound⟩
    obtain ⟨y, hq⟩ := checkQuota_missing db.balances emp lt.id dby hmiss
      (fun p hp2 b hb => not_lt.mpr (hbound p hp2 b hb))
    exact ⟨y, validate_eq_quota_error cal db emp lt s e half excluding
      dby _ h1 h2 h3 h4 hdb hp hq⟩

/-- Claim C5 witness: with remaining 2 on the sample balance, requesting
3 working days (days 100–102) fails with the insufficient-balance error, and
requesting exactly 2 (days 100–101) succeeds. -/
theorem claim_C5_witness :
    (∃ y, validate_leave_request cal0 db0 7 lt0 100 102 false (some 5) =
      .error (.notEnoughBalance y)) ∧
    validate_leave_request cal0 db0 7 lt0 100 101 false (some 5) =
      .ok (sumVals [(0, 2)]) := by
  constructor
  · refine ((claim_C5 cal0 db0 7 lt0 100 102 false (some 5) [(0, 3)]
      (by decide) (by decide) (by decide) (by decide)
      (by norm_num [calculate_working_days_by_year, accumulateDays, rangeList,
        isWorkingDay, bump, cal0, db0, List.range_succ])
      (by decide)).1 ?_).mpr ?_
    · intro p hp
      rw [List.mem_singleton] at hp
      subst hp
      norm_num [findBalance, db0, bal0, lt0]
    · refine ⟨(0, 3), List.mem_singleton.mpr rfl, bal0, ?_, ?_⟩
      · norm_num [findBalance, db0, bal0, lt0]
      · norm_num [bal0, LeaveBalance.remaining]
  · refine (claim_C5 cal0 db0 7 lt0 100 101 false (some 5) [(0, 2)]
      (by decide) (by decide) (by decide) (by decide)
      (by norm_num [calculate_working_days_by_year, accumulateDays, rangeList,
        isWorkingDay, bump, cal0, db0, List.range_succ])
      (by decide)).2.1 ?_
    intro p hp
    rw [List.mem_singleton] at hp
    subst hp
    refine ⟨bal0, ?_, ?_⟩
    · norm_num [findBalance, db0, bal0, lt0]
    · norm_num [bal0, LeaveBalance.remaining]

/-! ### Claims about approval, rejection and the balance ledger -/

/-- Claim C1: approving a non-Pending request fails with the
invalid-state-transition error and leaves every balance row unchanged; on a
Pending request whose re-validation succeeds, approval marks the request
Approved and, for a paid leave type, increments the `used` of each affected year
by exactly the computed chargeable days, leaving `allocated` (and every
identity of every row) unchanged; for an unpaid type the ledger is untouched. -/
theorem claim_C1 (cal : Calendar) (db : DB) (req : LeaveRequest) (ap : Nat)
    (c : String) :
    (req.status ≠ Status.pending →
      approve_leave_request cal db req ap c = .err .notPending db.balances) ∧
    (∀ t dby, req.status = Status.pending →
      validate_leave_request cal db req.employee req.leave_type req.start_date
        req.end_date req.half_day (some req.id) = .ok t →
      calculate_working_days_by_year cal db.holidays req.start_date
        req.end_date req.half_day = .ok dby →
      ∃ bals, approve_leave_request cal db req ap c =
          .ok bals
            { req with
              status := Status.approved
              approver := some ap
              approve_comment := c } ∧
        bals.map balanceShape = db.balances.map balanceShape ∧
        (req.leave_type.is_paid = true →
          ∀ p ∈ dby, ∃ b,
            findBalance db.balances req.employee req.leave_type.id p.1 =
              some b ∧
            findBalance bals req.employee req.leave_type.id p.1 =
              some { b with used := b.used + p.2 }) ∧
        (req.leave_type.is_paid = false → bals = db.balances)) := by
  constructor
  · intro h
    exact approve_eq_notPending cal db req ap c h
  · intro t dby h hv hdb
    refine ⟨if req.leave_type.is_paid then
              applyDebits req.employee req.leave_type.id dby db.balances
            else db.balances,
      approve_eq_ok cal db req ap c t dby h hv hdb, ?_, ?_, ?_⟩
    · by_cases hpaid : req.leave_type.is_paid = true
      · rw [if_pos hpaid, map_balanceShape_applyDebits]
      · rw [if_neg hpaid]
    · intro hpaid p hp
      obtain ⟨y, d⟩ := p
      rw [if_pos hpaid]
      obtain ⟨dby', hdb', -, hqpart⟩ := validate_ok_elim cal db req.employee
        req.leave_type req.start_date req.end_date req.half_day (some req.id)
        t hv
      rw [hdb] at hdb'
      injection hdb' with hd
      subst hd
      have hq := hqpart hpaid
      have hnd := nodup_keysOf_by_year cal db.holidays req.start_date
        req.end_date req.half_day dby hdb
      obtain ⟨b, hb, -⟩ := (checkQuota_ok_iff db.balances req.employee
        req.leave_type.id dby).mp hq (y, d) hp
      exact ⟨b, hb, findBalance_applyDebits_mem req.employee req.leave_type.id
        dby db.balances y d b hnd hp hb⟩
    · intro hpaid'
      rw [if_neg (show ¬ req.leave_type.is_paid = true by simp [hpaid'])]

/-- Claim C1 witness: approving the rejected sample request fails with the
invalid-state error; approving the pending sample request (two working days
against remaining 2) succeeds with the stated ledger effect. -/
theorem claim_C1_witness :
    approve_leave_request cal0 db0 reqRejected0 9 "" =
      .err .notPending db0.balances ∧
    ∃ bals, approve_leave_request cal0 db0 req0 9 "" =
        .ok bals
          { req0 with
            status := Status.approved
            approver := some 9
            approve_comment := "" } ∧
      bals.map balanceShape = db0.balances.map balanceShape ∧
      (req0.leave_type.is_paid = true →
        ∀ p ∈ [((0 : Nat), (2 : ℚ))], ∃ b,
          findBalance db0.balances req0.employee req0.leave_type.id p.1 =
            some b ∧
          findBalance bals req0.employee req0.leave_type.id p.1 =
            some { b with used := b.used + p.2 }) ∧
      (req0.leave_type.is_paid = false → bals = db0.balances) := by
  constructor
  · exact (claim_C1 cal0 db0 reqRejected0 9 "").1 (by decide)
  · refine (claim_C1 cal0 db0 req0 9 "").2 (sumVals [(0, 2)]) [(0, 2)]
      (by decide) ?_ ?_
    · exact validate_eq_quota_ok cal0 db0 req0.employee req0.leave_type
        req0.start_date req0.end_date req0.half_day (some req0.id) [(0, 2)]
        (by decide) (by decide) (by decide) (by decide)
        (by norm_num [calculate_working_days_by_year, accumulateDays, rangeList,
          isWorkingDay, bump, cal0, db0, req0, List.range_succ])
        (by decide)
        (by norm_num [checkQuota, findBalance, db0, bal0, lt0, req0,
          LeaveBalance.remaining])
    · norm_num [calculate_working_days_by_year, accumulateDays, rangeList,
        isWorkingDay, bump, cal0, db0, req0, List.range_succ]

/-- Claim C2: approval is atomic with respect to errors — whenever
`approve_leave_request` returns an error (invalid state, any validation
failure, missing balance, or insufficient balance), the balance table it
leaves behind is exactly the input table: in single-threaded execution the
defensive re-checks inside the debit loop cannot fail once validation has
passed, so no partial debit is ever persisted. -/
theorem claim_C2 (cal : Calendar) (db : DB) (req : LeaveRequest) (ap : Nat)
    (c : String) (e : Err) (bals : List LeaveBalance)
    (h : approve_leave_request cal db req ap c = .err e bals) :
    bals = db.balances := by
  by_cases hs : req.status = Status.pending
  · cases hv : validate_leave_request cal db req.employee req.leave_type
        req.start_date req.end_date req.half_day (some req.id) with
    | error err =>
        rw [approve_eq_validate_error cal db req ap c err hs hv] at h
        injection h with h1 h2
        exact h2.symm
    | ok t =>
        obtain ⟨dby, hdb, -, -⟩ := validate_ok_elim cal db req.employee
          req.leave_type req.start_date req.end_date req.half_day
          (some req.id) t hv
        rw [approve_eq_ok cal db req ap c t dby hs hv hdb] at h
        exact ApproveResult.noConfusion h
  · rw [approve_eq_notPending cal db req ap c hs] at h
    injection h with h1 h2
    exact h2.symm

/-- Claim C2 witness: approving a pending three-day request against a
remaining balance of 2 fails with the insufficient-balance error and leaves
the balance table untouched. -/
theorem claim_C2_witness :
    approve_leave_request cal0 db0 reqTooLong0 9 "" =
      .err (.notEnoughBalance 0) db0.balances ∧ db0.balances = db0.balances := by
  have hv : validate_leave_request cal0 db0 reqTooLong0.employee
      reqTooLong0.leave_type reqTooLong0.start_date reqTooLong0.end_date
      reqTooLong0.half_day (some reqTooLong0.id) =
      .error (.notEnoughBalance 0) :=
    validate_eq_quota_error cal0 db0 reqTooLong0.employee reqTooLong0.leave_type
      reqTooLong0.start_date reqTooLong0.end_date reqTooLong0.half_day
      (some reqTooLong0.id) [(0, 3)] (.notEnoughBalance 0)
      (by decide) (by decide) (by decide) (by decide)
      (by norm_num [calculate_working_days_by_year, accumulateDays, rangeList,
        isWorkingDay, bump, cal0, db0, req0, reqTooLong0, List.range_succ])
      (by decide)
      (by norm_num [checkQuota, findBalance, db0, bal0, lt0, req0, reqTooLong0,
        LeaveBalance.remaining])
  have h := approve_eq_validate_error cal0 db0 reqTooLong0 9 ""
    (.notEnoughBalance 0) (by decide) hv
  exact ⟨h, claim_C2 cal0 db0 reqTooLong0 9 "" (.notEnoughBalance 0)
    db0.balances h⟩

/-- Claim C9: existing balance rows are mutated only by approval — rejection
returns the balance table unchanged for any leave type, provisioning only
appends rows (never overwriting or resetting an existing one), and approval
preserves the identity and `allocated` of every row (no row is ever deleted). -/
theorem claim_C9 (cal : Calendar) (db : DB) (req : LeaveRequest) (ap : Nat)
    (c : String) (emp year : Nat) :
    (reject_leave_request db req ap c).balances = db.balances ∧
    (∃ newRows, create_default_leave_balances db emp year =
      db.balances ++ newRows) ∧
    ((approve_leave_request cal db req ap c).balances).map balanceShape =
      db.balances.map balanceShape := by
  refine ⟨?_, ?_, ?_⟩
  · unfold reject_leave_request
    by_cases hs : req.status ≠ Status.pending
    · rw [if_pos hs]
      rfl
    · rw [if_neg hs]
      rfl
  · unfold create_default_leave_balances
    exact foldl_provisionOne_append emp year db.leave_types db.balances
  · by_cases hs : req.status = Status.pending
    · cases hv : validate_leave_request cal db req.employee req.leave_type
          req.start_date req.end_date req.half_day (some req.id) with
      | error err =>
          rw [approve_eq_validate_error cal db req ap c err hs hv]
          rfl
      | ok t =>
          obtain ⟨dby, hdb, -, -⟩ := validate_ok_elim cal db req.employee
            req.leave_type req.start_date req.end_date req.half_day
            (some req.id) t hv
          rw [approve_eq_ok cal db req ap c t dby hs hv hdb]
          show (if req.leave_type.is_paid then
                  applyDebits req.employee req.leave_type.id dby db.balances
                else db.balances).map balanceShape = _
          by_cases hpaid : req.leave_type.is_paid = true
          · rw [if_pos hpaid, map_balanceShape_applyDebits]
          · rw [if_neg hpaid]
    · rw [approve_eq_notPending cal db req ap c hs]
      rfl

/-- Claim C10: a non-half-day range consisting entirely of weekends and
holidays yields an empty year map, so validation — even for a paid type with
no balance rows at all — performs no balance lookup, cannot raise a balance
error, and succeeds with 0 chargeable days; approving such a request debits
nothing. -/
theorem claim_C10 (cal : Calendar) (db : DB) (req : LeaveRequest) (ap : Nat)
    (c : String)
    (hhalf : req.half_day = false)
    (hse : req.start_date ≤ req.end_date)
    (hwork : ∀ d ∈ rangeList req.start_date req.end_date,
      isWorkingDay db.holidays d = false)
    (htoday : cal.today ≤ req.start_date)
    (hover : db.requests.any (overlapsCandidate req.employee req.start_date
      req.end_date (some req.id)) = false)
    (hp : req.status = Status.pending) :
    calculate_working_days_by_year cal db.holidays req.start_date req.end_date
      req.half_day = .ok [] ∧
    validate_leave_request cal db req.employee req.leave_type req.start_date
      req.end_date req.half_day (some req.id) = .ok 0 ∧
    approve_leave_request cal db req ap c =
      .ok db.balances
        { req with
          status := Status.approved
          approver := some ap
          approve_comment := c } := by
  have hdb : calculate_working_days_by_year cal db.holidays req.start_date
      req.end_date req.half_day = .ok [] := by
    rw [hhalf, by_year_not_half,
      accumulateDays_nonworking cal db.holidays _ _ hwork]
  have h1 : ¬ req.end_date < req.start_date := not_lt.mpr hse
  have h2 : ¬ req.start_date < cal.today := not_lt.mpr htoday
  have h3 : (req.half_day && !req.leave_type.allow_half_day) = false := by
    simp [hhalf]
  have hval : validate_leave_request cal db req.employee req.leave_type
      req.start_date req.end_date req.half_day (some req.id) = .ok 0 := by
    by_cases hpaid : req.leave_type.is_paid = true
    · have hv := validate_eq_quota_ok cal db req.employee req.leave_type
        req.start_date req.end_date req.half_day (some req.id) []
        h1 h2 h3 hover hdb hpaid rfl
      simpa [sumVals] using hv
    · have hv := validate_eq_unpaid cal db req.employee req.leave_type
        req.start_date req.end_date req.half_day (some req.id) []
        h1 h2 h3 hover hdb (Bool.not_eq_true _ ▸ hpaid)
      simpa [sumVals] using hv
  refine ⟨hdb, hval, ?_⟩
  have happ := approve_eq_ok cal db req ap c 0 [] hp hval hdb
  simpa [applyDebits] using happ

/-- Claim C10 witness: the weekend-only sample request (Saturday–Sunday)
against the empty database — no requests and no balance rows at all. -/
theorem claim_C10_witness :
    calculate_working_days_by_year cal0 dbEmpty.holidays
      reqWeekend0.start_date reqWeekend0.end_date reqWeekend0.half_day =
      .ok [] ∧
    validate_leave_request cal0 dbEmpty reqWeekend0.employee
      reqWeekend0.leave_type reqWeekend0.start_date reqWeekend0.end_date
      reqWeekend0.half_day (some reqWeekend0.id) = .ok 0 ∧
    approve_leave_request cal0 dbEmpty reqWeekend0 9 "" =
      .ok dbEmpty.balances
        { reqWeekend0 with
          status := Status.approved
          approver := some 9
          approve_comment := "" } :=
  claim_C10 cal0 dbEmpty reqWeekend0 9 "" (by decide) (by decide) (by decide)
    (by decide) (by decide) (by decide)

end LeaveApp
